import Mathlib

/-!
Verification of the trajectory playback engine of the mm_viz repository.

Times are modelled as rationals; positions and headings as reals (headings
use the constant pi). Arrays of timestamps are lists of rationals, and the
JavaScript behaviour of out-of-bounds array reads (undefined, which makes
every comparison false) is modelled with Option.
-/

/-- Two dimensional position, matching the position field of MouseState. -/
structure Vec2 where
  x : ℝ
  y : ℝ

/-- Pose of the mouse: position plus heading angle in radians. -/
structure MouseState where
  position : Vec2
  angle : ℝ

/-- Default pose used when the profile is empty: position (0,0), heading 0. -/
def originMouseState : MouseState :=
  { position := { x := 0, y := 0 }, angle := 0 }

/-- The trajectory profile is a finite map from time to pose, modelled
as an association list (the entries of the JavaScript Map). -/
def TrajectoryProfile : Type := List (ℚ × MouseState)

/-- Lookup in the profile map, as JavaScript Map.get (none models undefined). -/
def profGet (profile : TrajectoryProfile) (k : ℚ) : Option MouseState :=
  match profile with
  | [] => none
  | (k2, v) :: rest => if k = k2 then some v else profGet rest k

/-- Lookup followed by the non-null assertion the source places on Map.get:
claims only ever rely on it where the key is present. -/
def elemGet (profile : TrajectoryProfile) (k : ℚ) : MouseState :=
  (profGet profile k).getD originMouseState

/-- JavaScript array read with a possibly negative index: any index outside
the array yields undefined, modelled as none. -/
def jsIndex (ts : List ℚ) (i : ℤ) : Option ℚ :=
  if 0 ≤ i then ts[i.toNat]? else none

/-- Comparison elem <= time, false when the read was out of bounds. -/
def jsElemLe (a : Option ℚ) (t : ℚ) : Bool :=
  match a with
  | some v => decide (v ≤ t)
  | none => false

/-- Comparison elem < time, false when the read was out of bounds. -/
def jsElemLt (a : Option ℚ) (t : ℚ) : Bool :=
  match a with
  | some v => decide (v < t)
  | none => false

/-- Comparison time <= elem, false when the read was out of bounds. -/
def jsLeElem (t : ℚ) (a : Option ℚ) : Bool :=
  match a with
  | some v => decide (t ≤ v)
  | none => false

/-- Comparison time < elem, false when the read was out of bounds. -/
def jsLtElem (t : ℚ) (a : Option ℚ) : Bool :=
  match a with
  | some v => decide (t < v)
  | none => false

/-- The while loop of binarySearchTimeIndex. Indices are integers, the
midpoint uses floor division exactly as Math.floor((left+right)/2), and
the fallback return value after the loop is 0. -/
def bsLoop (ts : List ℚ) (time : ℚ) (l r : ℤ) : ℤ :=
  if h : l ≤ r then
    let mid := (l + r) / 2
    if jsElemLe (jsIndex ts mid) time && jsLtElem time (jsIndex ts (mid + 1)) then mid
    else if jsElemLt (jsIndex ts mid) time then bsLoop ts time (mid + 1) r
    else bsLoop ts time l (mid - 1)
  else 0
termination_by (r + 1 - l).toNat
decreasing_by
  · omega
  · omega

/-- Binary search for the keyframe index bracketing a query time, from
TrajectoryProvider.tsx and useTrajectoryAnimation.ts (the two copies are
textually identical). -/
def binarySearchTimeIndex (ts : List ℚ) (time : ℚ) : ℤ :=
  let right : ℤ := (ts.length : ℤ) - 1
  if jsLeElem time (jsIndex ts 0) then 0
  else if jsElemLe (jsIndex ts right) time then right
  else bsLoop ts time 0 right

/-- In-bounds array reads produce the list entry. -/
theorem jsIndex_pos (ts : List ℚ) {i : ℤ} (h0 : 0 ≤ i) (h1 : i.toNat < ts.length) :
    jsIndex ts i = some (ts.getD i.toNat 0) := by
  simp [jsIndex, h0, List.getElem?_eq_getElem h1, List.getD_eq_getElem]

/-- Sorted lists are monotone on indices, stated with default reads. -/
theorem sorted_getD_lt {ts : List ℚ} (hsort : ts.Pairwise (· < ·))
    {i j : ℕ} (hij : i < j) (hj : j < ts.length) :
    ts.getD i 0 < ts.getD j 0 := by
  have hi : i < ts.length := lt_trans hij hj
  rw [List.getD_eq_getElem ts 0 hi, List.getD_eq_getElem ts 0 hj]
  exact List.pairwise_iff_getElem.mp hsort i j hi hj hij

/-- Sorted lists are monotone on indices, non-strict version. -/
theorem sorted_getD_le {ts : List ℚ} (hsort : ts.Pairwise (· < ·))
    {i j : ℕ} (hij : i ≤ j) (hj : j < ts.length) :
    ts.getD i 0 ≤ ts.getD j 0 := by
  rcases Nat.eq_or_lt_of_le hij with h | h
  · rw [h]
  · exact le_of_lt (sorted_getD_lt hsort h hj)

@[simp] theorem jsElemLe_some (v t : ℚ) : jsElemLe (some v) t = decide (v ≤ t) := rfl

@[simp] theorem jsElemLe_none (t : ℚ) : jsElemLe none t = false := rfl

@[simp] theorem jsElemLt_some (v t : ℚ) : jsElemLt (some v) t = decide (v < t) := rfl

@[simp] theorem jsElemLt_none (t : ℚ) : jsElemLt none t = false := rfl

@[simp] theorem jsLeElem_some (t v : ℚ) : jsLeElem t (some v) = decide (t ≤ v) := rfl

@[simp] theorem jsLeElem_none (t : ℚ) : jsLeElem t none = false := rfl

@[simp] theorem jsLtElem_some (t v : ℚ) : jsLtElem t (some v) = decide (t < v) := rfl

@[simp] theorem jsLtElem_none (t : ℚ) : jsLtElem t none = false := rfl

/-- Out-of-bounds reads make a left comparison false. -/
theorem jsElemLe_true_elim {ts : List ℚ} {i : ℤ} {t : ℚ}
    (h : jsElemLe (jsIndex ts i) t = true) :
    0 ≤ i ∧ i.toNat < ts.length ∧ ts.getD i.toNat 0 ≤ t := by
  by_cases h0 : 0 ≤ i
  · by_cases h1 : i.toNat < ts.length
    · rw [jsIndex_pos ts h0 h1] at h
      simp only [jsElemLe_some, decide_eq_true_eq] at h
      exact ⟨h0, h1, h⟩
    · rw [jsIndex, if_pos h0, List.getElem?_eq_none (by omega)] at h
      simp at h
  · rw [jsIndex, if_neg h0] at h
    simp at h

/-- Out-of-bounds reads make a strict left comparison false. -/
theorem jsElemLt_true_elim {ts : List ℚ} {i : ℤ} {t : ℚ}
    (h : jsElemLt (jsIndex ts i) t = true) :
    0 ≤ i ∧ i.toNat < ts.length ∧ ts.getD i.toNat 0 < t := by
  by_cases h0 : 0 ≤ i
  · by_cases h1 : i.toNat < ts.length
    · rw [jsIndex_pos ts h0 h1] at h
      simp only [jsElemLt_some, decide_eq_true_eq] at h
      exact ⟨h0, h1, h⟩
    · rw [jsIndex, if_pos h0, List.getElem?_eq_none (by omega)] at h
      simp at h
  · rw [jsIndex, if_neg h0] at h
    simp at h

/-- Out-of-bounds reads make a right comparison false. -/
theorem jsLtElem_true_elim {ts : List ℚ} {i : ℤ} {t : ℚ}
    (h : jsLtElem t (jsIndex ts i) = true) :
    0 ≤ i ∧ i.toNat < ts.length ∧ t < ts.getD i.toNat 0 := by
  by_cases h0 : 0 ≤ i
  · by_cases h1 : i.toNat < ts.length
    · rw [jsIndex_pos ts h0 h1] at h
      simp only [jsLtElem_some, decide_eq_true_eq] at h
      exact ⟨h0, h1, h⟩
    · rw [jsIndex, if_pos h0, List.getElem?_eq_none (by omega)] at h
      simp at h
  · rw [jsIndex, if_neg h0] at h
    simp at h

/-- Between any two sorted entries bracketing the query time there is an
adjacent bracketing pair. -/
theorem exists_bracket {ts : List ℚ} {time : ℚ} :
    ∀ n i j : ℕ, j - i = n → i < j → j < ts.length →
      ts.getD i 0 ≤ time → time < ts.getD j 0 →
      ∃ k : ℕ, i ≤ k ∧ k < j ∧ ts.getD k 0 ≤ time ∧ time < ts.getD (k + 1) 0 := by
  intro n
  induction n with
  | zero => intro i j hn hij; omega
  | succ n ih =>
    intro i j hn hij hj hle hlt
    by_cases hj1 : i + 1 = j
    · exact ⟨i, le_refl i, hij, hle, by rwa [hj1]⟩
    · by_cases hnext : ts.getD (i + 1) 0 ≤ time
      · obtain ⟨k, hk1, hk2, hk3, hk4⟩ := ih (i + 1) j (by omega) (by omega) hj hnext hlt
        exact ⟨k, by omega, hk2, hk3, hk4⟩
      · exact ⟨i, le_refl i, hij, hle, not_le.mp hnext⟩

/-- The loop of binarySearchTimeIndex never returns a negative index, and
any nonzero return value has its successor index still inside the array. -/
theorem bsLoop_bounds_aux (ts : List ℚ) (time : ℚ) :
    ∀ n : ℕ, ∀ l r : ℤ, (r + 1 - l).toNat ≤ n →
      bsLoop ts time l r = 0 ∨
        (0 ≤ bsLoop ts time l r ∧ (bsLoop ts time l r).toNat + 1 < ts.length) := by
  intro n
  induction n with
  | zero =>
    intro l r hm
    rw [bsLoop.eq_def, dif_neg (by omega)]
    exact Or.inl rfl
  | succ n ih =>
    intro l r hm
    by_cases hlr : l ≤ r
    · rw [bsLoop.eq_def, dif_pos hlr]
      simp only []
      by_cases hc1 : (jsElemLe (jsIndex ts ((l + r) / 2)) time &&
          jsLtElem time (jsIndex ts ((l + r) / 2 + 1))) = true
      · rw [if_pos hc1]
        rw [Bool.and_eq_true] at hc1
        obtain ⟨hca, hcb⟩ := hc1
        obtain ⟨ha0, _, _⟩ := jsElemLe_true_elim hca
        obtain ⟨_, hb1, _⟩ := jsLtElem_true_elim hcb
        exact Or.inr ⟨ha0, by omega⟩
      · rw [if_neg hc1]
        by_cases hc2 : jsElemLt (jsIndex ts ((l + r) / 2)) time = true
        · rw [if_pos hc2]
          exact ih ((l + r) / 2 + 1) r (by omega)
        · rw [if_neg hc2]
          exact ih l ((l + r) / 2 - 1) (by omega)
    · rw [bsLoop.eq_def, dif_neg hlr]
      exact Or.inl rfl

/-- On a strictly sorted array, when an adjacent bracketing pair exists in
the search corridor, the loop returns an index of such a pair. -/
theorem bsLoop_correct_aux (ts : List ℚ) (time : ℚ) (hsort : ts.Pairwise (· < ·)) :
    ∀ n : ℕ, ∀ l r : ℤ, (r + 1 - l).toNat ≤ n → 0 ≤ l → r ≤ (ts.length : ℤ) - 1 →
      (∃ k : ℕ, l ≤ (k : ℤ) ∧ (k : ℤ) ≤ r ∧ k + 1 < ts.length ∧
        ts.getD k 0 ≤ time ∧ time < ts.getD (k + 1) 0) →
      (0 ≤ bsLoop ts time l r ∧ (bsLoop ts time l r).toNat + 1 < ts.length ∧
        ts.getD (bsLoop ts time l r).toNat 0 ≤ time ∧
        time < ts.getD ((bsLoop ts time l r).toNat + 1) 0) := by
  intro n
  induction n with
  | zero =>
    intro l r hm h0 hr hex
    obtain ⟨k, hk1, hk2, _, _, _⟩ := hex
    omega
  | succ n ih =>
    intro l r hm h0 hr hex
    obtain ⟨k, hk1, hk2, hk3, hk4, hk5⟩ := hex
    have hlr : l ≤ r := le_trans hk1 hk2
    have hmid1 : l ≤ (l + r) / 2 := by omega
    have hmid2 : (l + r) / 2 ≤ r := by omega
    rw [bsLoop.eq_def, dif_pos hlr]
    simp only []
    by_cases hc1 : (jsElemLe (jsIndex ts ((l + r) / 2)) time &&
        jsLtElem time (jsIndex ts ((l + r) / 2 + 1))) = true
    · rw [if_pos hc1]
      rw [Bool.and_eq_true] at hc1
      obtain ⟨hca, hcb⟩ := hc1
      obtain ⟨ha0, ha1, ha2⟩ := jsElemLe_true_elim hca
      obtain ⟨hb0, hb1, hb2⟩ := jsLtElem_true_elim hcb
      refine ⟨ha0, by omega, ha2, ?_⟩
      have : (((l + r) / 2 + 1).toNat) = ((l + r) / 2).toNat + 1 := by omega
      rwa [this] at hb2
    · rw [if_neg hc1]
      by_cases hc2 : jsElemLt (jsIndex ts ((l + r) / 2)) time = true
      · rw [if_pos hc2]
        obtain ⟨hd0, hd1, hd2⟩ := jsElemLt_true_elim hc2
        -- the bracketing index lies strictly right of mid
        have hkmid : (l + r) / 2 + 1 ≤ (k : ℤ) := by
          by_contra hcon
          have hkle : (k : ℤ) ≤ (l + r) / 2 := by omega
          rcases eq_or_lt_of_le hkle with heq | hlt
          · -- k equals mid, so the success branch would have fired
            have hmn : ((l + r) / 2).toNat = k := by omega
            apply hc1
            rw [Bool.and_eq_true]
            constructor
            · rw [jsIndex_pos ts hd0 (by omega)]
              simp only [jsElemLe_some, decide_eq_true_eq]
              rw [hmn]
              exact hk4
            · rw [jsIndex_pos ts (by omega) (by omega)]
              simp only [jsLtElem_some, decide_eq_true_eq]
              have : ((l + r) / 2 + 1).toNat = k + 1 := by omega
              rw [this]
              exact hk5
          · -- k strictly left of mid contradicts the sorted order
            have hstep : ts.getD (k + 1) 0 ≤ ts.getD ((l + r) / 2).toNat 0 :=
              sorted_getD_le hsort (by omega) hd1
            have : time < time := lt_of_lt_of_le (lt_of_lt_of_le hk5 hstep) (le_of_lt hd2)
            exact absurd this (lt_irrefl time)
        exact ih ((l + r) / 2 + 1) r (by omega) (by omega) hr
          ⟨k, hkmid, hk2, hk3, hk4, hk5⟩
      · rw [if_neg hc2]
        -- mid is in range, and the element at mid is at least the query time
        have hd0 : (0 : ℤ) ≤ (l + r) / 2 := by omega
        have hd1 : ((l + r) / 2).toNat < ts.length := by omega
        have hge : time ≤ ts.getD ((l + r) / 2).toNat 0 := by
          by_contra hcon
          apply hc2
          rw [jsIndex_pos ts hd0 hd1]
          simp only [jsElemLt_some, decide_eq_true_eq]
          exact not_le.mp hcon
        have hkmid : (k : ℤ) ≤ (l + r) / 2 - 1 := by
          by_contra hcon
          have hkge : (l + r) / 2 ≤ (k : ℤ) := by omega
          rcases eq_or_lt_of_le hkge with heq | hlt
          · -- k equals mid, so the success branch would have fired
            have hmn : ((l + r) / 2).toNat = k := by omega
            apply hc1
            rw [Bool.and_eq_true]
            constructor
            · rw [jsIndex_pos ts hd0 hd1]
              simp only [jsElemLe_some, decide_eq_true_eq]
              rw [hmn]
              exact hk4
            · rw [jsIndex_pos ts (by omega) (by omega)]
              simp only [jsLtElem_some, decide_eq_true_eq]
              have : ((l + r) / 2 + 1).toNat = k + 1 := by omega
              rw [this]
              exact hk5
          · -- mid strictly left of k contradicts the sorted order
            have hstep : ts.getD ((l + r) / 2).toNat 0 < ts.getD k 0 :=
              sorted_getD_lt hsort (by omega) (by omega)
            have : time < time := lt_of_le_of_lt hge (lt_of_lt_of_le hstep hk4)
            exact absurd this (lt_irrefl time)
        exact ih l ((l + r) / 2 - 1) (by omega) h0 (by omega)
          ⟨k, hk1, hkmid, hk3, hk4, hk5⟩

/-- In the interior case the search reaches the loop and returns a
bracketing index. -/
theorem binarySearch_interior {ts : List ℚ} {t : ℚ}
    (hsort : ts.Pairwise (· < ·)) (hne : ts ≠ [])
    (ha : ts.getD 0 0 < t) (hb : t < ts.getD (ts.length - 1) 0) :
    0 ≤ binarySearchTimeIndex ts t ∧
      (binarySearchTimeIndex ts t).toNat + 1 < ts.length ∧
      ts.getD (binarySearchTimeIndex ts t).toNat 0 ≤ t ∧
      t < ts.getD ((binarySearchTimeIndex ts t).toNat + 1) 0 := by
  have hlen : 0 < ts.length := List.length_pos.mpr hne
  have hlen2 : 2 ≤ ts.length := by
    by_contra hcon
    have h1 : ts.length - 1 = 0 := by omega
    rw [h1] at hb
    exact absurd (lt_trans ha hb) (lt_irrefl (ts.getD 0 0))
  have h00 : ((0 : ℤ)).toNat < ts.length := by omega
  have hg1 : jsLeElem t (jsIndex ts 0) = false := by
    rw [jsIndex_pos ts le_rfl h00]
    simp only [jsLeElem_some, Int.toNat_zero, decide_eq_false_iff_not]
    exact not_le.mpr ha
  have hg2 : jsElemLe (jsIndex ts ((ts.length : ℤ) - 1)) t = false := by
    have h0 : (0 : ℤ) ≤ (ts.length : ℤ) - 1 := by omega
    have h1 : ((ts.length : ℤ) - 1).toNat < ts.length := by omega
    rw [jsIndex_pos ts h0 h1]
    have h2 : ((ts.length : ℤ) - 1).toNat = ts.length - 1 := by omega
    rw [h2]
    simp only [jsElemLe_some, decide_eq_false_iff_not]
    exact not_le.mpr hb
  have hres : binarySearchTimeIndex ts t = bsLoop ts t 0 ((ts.length : ℤ) - 1) := by
    simp [binarySearchTimeIndex, hg1, hg2]
  obtain ⟨k, hk0, hk1, hk2, hk3⟩ :=
    exists_bracket (ts.length - 1 - 0) 0 (ts.length - 1) rfl (by omega) (by omega)
      (le_of_lt ha) hb
  rw [hres]
  exact bsLoop_correct_aux ts t hsort ((ts.length : ℤ) - 1 + 1 - 0).toNat 0
    ((ts.length : ℤ) - 1) le_rfl le_rfl le_rfl
    ⟨k, by omega, by omega, by omega, hk2, hk3⟩

/-- C1: on a strictly ascending nonempty timestamp array, the binary search
returns 0 when the query is at or before the first key, the last index when
the query is at or after the last key, and otherwise an index i whose key is
at most the query while the key at i+1 is strictly beyond it. -/
theorem claim_C1_binarySearch_locate (ts : List ℚ) (t : ℚ)
    (hsort : ts.Pairwise (· < ·)) (hne : ts ≠ []) :
    (t ≤ ts.getD 0 0 → binarySearchTimeIndex ts t = 0) ∧
    (ts.getD (ts.length - 1) 0 ≤ t →
      binarySearchTimeIndex ts t = (ts.length : ℤ) - 1) ∧
    (ts.getD 0 0 < t → t < ts.getD (ts.length - 1) 0 →
      0 ≤ binarySearchTimeIndex ts t ∧
      (binarySearchTimeIndex ts t).toNat + 1 < ts.length ∧
      ts.getD (binarySearchTimeIndex ts t).toNat 0 ≤ t ∧
      t < ts.getD ((binarySearchTimeIndex ts t).toNat + 1) 0) := by
  have hlen : 0 < ts.length := List.length_pos.mpr hne
  have h00 : ((0 : ℤ)).toNat < ts.length := by omega
  refine ⟨?_, ?_, ?_⟩
  · intro h
    have hg1 : jsLeElem t (jsIndex ts 0) = true := by
      rw [jsIndex_pos ts le_rfl h00]
      simp only [jsLeElem_some, Int.toNat_zero, decide_eq_true_eq]
      exact h
    simp [binarySearchTimeIndex, hg1]
  · intro h
    by_cases hg1 : jsLeElem t (jsIndex ts 0) = true
    · -- the first guard fired, which forces a one element array here
      have hx := hg1
      rw [jsIndex_pos ts le_rfl h00] at hx
      simp only [jsLeElem_some, Int.toNat_zero, decide_eq_true_eq] at hx
      have hl1 : ts.length = 1 := by
        by_contra hcon
        have h2 : (0 : ℕ) < ts.length - 1 := by omega
        have h3 := sorted_getD_lt hsort h2 (by omega)
        exact absurd (lt_of_lt_of_le h3 (le_trans h hx)) (lt_irrefl _)
      have hz : binarySearchTimeIndex ts t = 0 := by simp [binarySearchTimeIndex, hg1]
      rw [hz, hl1]
      norm_num
    · have hg2 : jsElemLe (jsIndex ts ((ts.length : ℤ) - 1)) t = true := by
        have h0 : (0 : ℤ) ≤ (ts.length : ℤ) - 1 := by omega
        have h1 : ((ts.length : ℤ) - 1).toNat < ts.length := by omega
        rw [jsIndex_pos ts h0 h1]
        have h2 : ((ts.length : ℤ) - 1).toNat = ts.length - 1 := by omega
        rw [h2]
        simp only [jsElemLe_some, decide_eq_true_eq]
        exact h
      simp [binarySearchTimeIndex, hg1, hg2]
  · intro ha hb
    exact binarySearch_interior hsort hne ha hb

/-- Witness for claim C1 at the concrete sorted array [1, 2, 4], query 3. -/
theorem claim_C1_binarySearch_locate_witness :
    (([1, 2, 4] : List ℚ).Pairwise (· < ·) ∧ ([1, 2, 4] : List ℚ) ≠ []) ∧
    (((3 : ℚ) ≤ ([1, 2, 4] : List ℚ).getD 0 0 →
        binarySearchTimeIndex [1, 2, 4] 3 = 0) ∧
      (([1, 2, 4] : List ℚ).getD (([1, 2, 4] : List ℚ).length - 1) 0 ≤ 3 →
        binarySearchTimeIndex [1, 2, 4] 3 = (([1, 2, 4] : List ℚ).length : ℤ) - 1) ∧
      (([1, 2, 4] : List ℚ).getD 0 0 < 3 →
        (3 : ℚ) < ([1, 2, 4] : List ℚ).getD (([1, 2, 4] : List ℚ).length - 1) 0 →
        0 ≤ binarySearchTimeIndex [1, 2, 4] 3 ∧
        (binarySearchTimeIndex [1, 2, 4] 3).toNat + 1 < ([1, 2, 4] : List ℚ).length ∧
        ([1, 2, 4] : List ℚ).getD (binarySearchTimeIndex [1, 2, 4] 3).toNat 0 ≤ 3 ∧
        (3 : ℚ) < ([1, 2, 4] : List ℚ).getD
          ((binarySearchTimeIndex [1, 2, 4] 3).toNat + 1) 0)) :=
  ⟨⟨by decide, by decide⟩,
    claim_C1_binarySearch_locate [1, 2, 4] 3 (by decide) (by decide)⟩

/-- C10: on every nonempty timestamp array, sorted or not, the search
terminates (it is a total function here) with an index between 0 and
length - 1; on a sorted array with the query strictly interior the result
is moreover below length - 1, so reading index i+1 stays in bounds. -/
theorem claim_C10_binarySearch_safe (ts : List ℚ) (t : ℚ) (hne : ts ≠ []) :
    (0 ≤ binarySearchTimeIndex ts t ∧
      binarySearchTimeIndex ts t ≤ (ts.length : ℤ) - 1) ∧
    (ts.Pairwise (· < ·) → ts.getD 0 0 < t → t < ts.getD (ts.length - 1) 0 →
      binarySearchTimeIndex ts t < (ts.length : ℤ) - 1) := by
  have hlen : 0 < ts.length := List.length_pos.mpr hne
  constructor
  · by_cases hg1 : jsLeElem t (jsIndex ts 0) = true
    · have h : binarySearchTimeIndex ts t = 0 := by simp [binarySearchTimeIndex, hg1]
      rw [h]
      omega
    · by_cases hg2 : jsElemLe (jsIndex ts ((ts.length : ℤ) - 1)) t = true
      · have h : binarySearchTimeIndex ts t = (ts.length : ℤ) - 1 := by
          simp [binarySearchTimeIndex, hg1, hg2]
        rw [h]
        omega
      · have h : binarySearchTimeIndex ts t = bsLoop ts t 0 ((ts.length : ℤ) - 1) := by
          simp [binarySearchTimeIndex, hg1, hg2]
        rw [h]
        rcases bsLoop_bounds_aux ts t ((ts.length : ℤ) - 1 + 1 - 0).toNat 0
            ((ts.length : ℤ) - 1) le_rfl with h0 | ⟨h1, h2⟩
        · rw [h0]
          omega
        · omega
  · intro hsort ha hb
    obtain ⟨h1, h2, _, _⟩ := binarySearch_interior hsort hne ha hb
    omega

/-- Witness for claim C10 at the concrete unsorted array [5, 1, 9, 2]. -/
theorem claim_C10_binarySearch_safe_witness :
    (([5, 1, 9, 2] : List ℚ) ≠ []) ∧
    ((0 ≤ binarySearchTimeIndex [5, 1, 9, 2] 3 ∧
        binarySearchTimeIndex [5, 1, 9, 2] 3 ≤ (([5, 1, 9, 2] : List ℚ).length : ℤ) - 1) ∧
      (([5, 1, 9, 2] : List ℚ).Pairwise (· < ·) →
        ([5, 1, 9, 2] : List ℚ).getD 0 0 < 3 →
        (3 : ℚ) < ([5, 1, 9, 2] : List ℚ).getD (([5, 1, 9, 2] : List ℚ).length - 1) 0 →
        binarySearchTimeIndex [5, 1, 9, 2] 3 < (([5, 1, 9, 2] : List ℚ).length : ℤ) - 1)) :=
  ⟨by decide, claim_C10_binarySearch_safe [5, 1, 9, 2] 3 (by decide)⟩

/-- Truncation toward zero on reals, the integer part used by the
JavaScript remainder operator. -/
noncomputable def jsTrunc (x : ℝ) : ℤ :=
  if 0 ≤ x then ⌊x⌋ else -⌊-x⌋

/-- The JavaScript remainder operator on numbers: the result of x % d is
x - d * trunc (x / d) and carries the sign of the dividend. -/
noncomputable def jsMod (x d : ℝ) : ℝ :=
  x - d * (jsTrunc (x / d) : ℝ)

/-- Shortest-path angular interpolation, interpolateAngle of
TrajectoryProvider.tsx and useTrajectoryAnimation.ts. -/
noncomputable def interpolateAngle (a1 a2 t : ℝ) : ℝ :=
  let diff := jsMod (a2 - a1 + Real.pi * 3) (Real.pi * 2) - Real.pi
  jsMod (a1 + diff * t + Real.pi * 3) (Real.pi * 2) - Real.pi

/-- Keyframe-to-keyframe interpolation at parameter t: componentwise linear
position blend plus shortest-path angle blend, the interpolation step of
useInterpolatedMouseState and updateMouseStateForTime. -/
noncomputable def interpolatePose (before afterPose : MouseState) (t : ℝ) : MouseState :=
  { position :=
      { x := before.position.x + (afterPose.position.x - before.position.x) * t,
        y := before.position.y + (afterPose.position.y - before.position.y) * t },
    angle := interpolateAngle before.angle afterPose.angle t }

/-- Pose of the mouse at a query time, updateMouseStateForTime of
useTrajectoryAnimation.ts: origin pose on an empty profile, clamped to the
first or last keyframe outside the key range, interpolation between the
bracketing keyframes inside it. -/
noncomputable def updateMouseStateForTime (time : ℚ)
    (trajectoryProfile : TrajectoryProfile) (ts : List ℚ) : MouseState :=
  if ts.length = 0 then originMouseState
  else if time ≤ ts.getD 0 0 then elemGet trajectoryProfile (ts.getD 0 0)
  else if ts.getD (ts.length - 1) 0 ≤ time then
    elemGet trajectoryProfile (ts.getD (ts.length - 1) 0)
  else
    let beforeIndex := binarySearchTimeIndex ts time
    let beforeTime := ts.getD beforeIndex.toNat 0
    let afterTime := ts.getD (beforeIndex.toNat + 1) 0
    let tratio : ℚ := (time - beforeTime) / (afterTime - beforeTime)
    interpolatePose (elemGet trajectoryProfile beforeTime)
      (elemGet trajectoryProfile afterTime) (tratio : ℝ)

/-- Pose of the mouse at a query time, useInterpolatedMouseState of
TrajectoryProvider.tsx: the same computation as updateMouseStateForTime
with the provider's argument order. -/
noncomputable def useInterpolatedMouseState (trajectoryProfile : TrajectoryProfile)
    (currentTime : ℚ) (sortedTimestamps : List ℚ) : MouseState :=
  if sortedTimestamps.length = 0 then originMouseState
  else if currentTime ≤ sortedTimestamps.getD 0 0 then
    elemGet trajectoryProfile (sortedTimestamps.getD 0 0)
  else if sortedTimestamps.getD (sortedTimestamps.length - 1) 0 ≤ currentTime then
    elemGet trajectoryProfile (sortedTimestamps.getD (sortedTimestamps.length - 1) 0)
  else
    let beforeIndex := binarySearchTimeIndex sortedTimestamps currentTime
    let beforeTime := sortedTimestamps.getD beforeIndex.toNat 0
    let afterTime := sortedTimestamps.getD (beforeIndex.toNat + 1) 0
    let tratio : ℚ := (currentTime - beforeTime) / (afterTime - beforeTime)
    interpolatePose (elemGet trajectoryProfile beforeTime)
      (elemGet trajectoryProfile afterTime) (tratio : ℝ)

namespace TP

/-- State of TrajectoryProvider.tsx: the installed profile with its sorted
timestamp cache, and the playback fields held in React state and refs. -/
structure State where
  trajectoryProfile : TrajectoryProfile
  sortedTimestamps : List ℚ
  currentTime : ℚ
  isPlaying : Bool
  playbackSpeed : ℚ

/-- Derived duration: the last sorted timestamp, 0 on an empty profile. -/
def duration (s : State) : ℚ :=
  if 0 < s.sortedTimestamps.length then
    s.sortedTimestamps.getD (s.sortedTimestamps.length - 1) 0
  else 0

/-- play of TrajectoryProvider.tsx: no-op while already playing, otherwise
start playing, rewinding to 0 when the time has reached the end. -/
def play (s : State) : State :=
  if s.isPlaying then s
  else if duration s ≤ s.currentTime then { s with isPlaying := true, currentTime := 0 }
  else { s with isPlaying := true }

/-- pause of TrajectoryProvider.tsx. -/
def pause (s : State) : State :=
  { s with isPlaying := false }

/-- stop of TrajectoryProvider.tsx: halt playback and rewind to time 0. -/
def stop (s : State) : State :=
  { s with isPlaying := false, currentTime := 0 }

/-- seekTo of TrajectoryProvider.tsx: clamp the target into [0, duration]. -/
def seekTo (time : ℚ) (s : State) : State :=
  { s with currentTime := max 0 (min time (duration s)) }

/-- setSpeed of TrajectoryProvider.tsx, exposed as setPlaybackSpeed: clamp
the speed into [0.1, 10]. -/
def setSpeed (speed : ℚ) (s : State) : State :=
  { s with playbackSpeed := max (1/10) (min 10 speed) }

/-- Derived pose of the provider at its current time. -/
noncomputable def currentMouseState (s : State) : MouseState :=
  useInterpolatedMouseState s.trajectoryProfile s.currentTime s.sortedTimestamps

end TP

namespace DS

/-- Trajectory slice of the zustand data store of dataStore.ts. -/
structure State where
  trajectoryProfile : TrajectoryProfile
  isPlaying : Bool
  duration : ℚ
  playbackSpeed : ℚ
  isLoopEnabled : Bool
  sortedTimestamps : List ℚ
  mouseState : MouseState

/-- play of dataStore.ts: only sets the playing flag. -/
def play (s : State) : State :=
  { s with isPlaying := true }

/-- pause of dataStore.ts: only clears the playing flag. -/
def pause (s : State) : State :=
  { s with isPlaying := false }

/-- stop of dataStore.ts: clear the playing flag and, when the profile has
a first keyframe, point the pose at it. -/
def stop (s : State) : State :=
  let s1 := { s with isPlaying := false }
  match s.sortedTimestamps with
  | [] => s1
  | t0 :: _ =>
    match profGet s.trajectoryProfile t0 with
    | some firstElement => { s1 with mouseState := firstElement }
    | none => s1

/-- setPlaybackSpeed of dataStore.ts: clamp the speed into [0.1, 10]. -/
def setPlaybackSpeed (speed : ℚ) (s : State) : State :=
  { s with playbackSpeed := max (1/10) (min 10 speed) }

/-- setLoopEnabled of dataStore.ts. -/
def setLoopEnabled (enabled : Bool) (s : State) : State :=
  { s with isLoopEnabled := enabled }

end DS

/-- Per-frame state touched by TrajectoryAnimationController.tsx: the store
fields it reads, the shared animation refs it writes, and its local
last-frame time. -/
structure AnimState where
  isPlaying : Bool
  duration : ℚ
  playbackSpeed : ℚ
  isLoopEnabled : Bool
  trajectoryProfile : TrajectoryProfile
  sortedTimestamps : List ℚ
  currentTime : ℚ
  mouseState : MouseState
  lastTime : ℚ

/-- The next time one useFrame callback computes: the frame delta capped at
0.1 s, treated as zero on the first frame after starting, scaled by the
playback speed and added to the current time. -/
def nextTimeOf (delta : ℚ) (s : AnimState) : ℚ :=
  s.currentTime + (if s.lastTime = 0 then 0 else min delta (1/10)) * s.playbackSpeed

/-- One useFrame callback of TrajectoryAnimationController.tsx. -/
noncomputable def advanceFrame (delta : ℚ) (s : AnimState) : AnimState :=
  if s.isPlaying = false then { s with lastTime := 0 }
  else
    let cappedDelta := min delta (1/10)
    let timeSinceLastFrame := if s.lastTime = 0 then 0 else cappedDelta
    let nextTime := s.currentTime + timeSinceLastFrame * s.playbackSpeed
    if s.duration ≤ nextTime then
      if s.isLoopEnabled then
        { s with currentTime := 0,
                 mouseState := updateMouseStateForTime 0 s.trajectoryProfile s.sortedTimestamps,
                 lastTime := 0 }
      else
        { s with currentTime := s.duration,
                 mouseState :=
                   updateMouseStateForTime s.duration s.trajectoryProfile s.sortedTimestamps,
                 isPlaying := false,
                 lastTime := 0 }
    else
      { s with currentTime := nextTime,
               mouseState :=
                 updateMouseStateForTime nextTime s.trajectoryProfile s.sortedTimestamps,
               lastTime := cappedDelta }

/-- C6: setPlaybackSpeed clamps 100 down to 10 and 0 up to 0.1, seekTo
clamps -5 up to 0 and duration + 5 down to duration, and both operations
are total functions of the argument, so no out-of-range input raises an
error. -/
theorem claim_C6_clamping (d : DS.State) (s : TP.State) (hdur : 0 ≤ TP.duration s) :
    (DS.setPlaybackSpeed 100 d).playbackSpeed = 10 ∧
    (DS.setPlaybackSpeed 0 d).playbackSpeed = 1 / 10 ∧
    (TP.seekTo (-5) s).currentTime = 0 ∧
    (TP.seekTo (TP.duration s + 5) s).currentTime = TP.duration s := by
  refine ⟨?_, ?_, ?_, ?_⟩
  · show max (1 / 10 : ℚ) (min 10 100) = 10
    norm_num
  · show max (1 / 10 : ℚ) (min 10 0) = 1 / 10
    norm_num
  · show max 0 (min (-5) (TP.duration s)) = 0
    exact max_eq_left (le_trans (min_le_left _ _) (by norm_num))
  · show max 0 (min (TP.duration s + 5) (TP.duration s)) = TP.duration s
    rw [min_eq_right (by linarith), max_eq_right hdur]

/-- Concrete provider state over a two keyframe profile, used by the C6
witness. -/
def c6tp : TP.State :=
  { trajectoryProfile := [(0, originMouseState), (2, originMouseState)],
    sortedTimestamps := [0, 2], currentTime := 1, isPlaying := false,
    playbackSpeed := 1 }

/-- Concrete data store state used by the C6 witness. -/
def c6ds : DS.State :=
  { trajectoryProfile := [], isPlaying := false, duration := 0,
    playbackSpeed := 1, isLoopEnabled := false, sortedTimestamps := [],
    mouseState := originMouseState }

/-- Witness for claim C6 at concrete store and provider states. -/
theorem claim_C6_clamping_witness :
    (0 ≤ TP.duration c6tp) ∧
    ((DS.setPlaybackSpeed 100 c6ds).playbackSpeed = 10 ∧
      (DS.setPlaybackSpeed 0 c6ds).playbackSpeed = 1 / 10 ∧
      (TP.seekTo (-5) c6tp).currentTime = 0 ∧
      (TP.seekTo (TP.duration c6tp + 5) c6tp).currentTime = TP.duration c6tp) :=
  ⟨by decide, claim_C6_clamping c6ds c6tp (by decide)⟩

/-- C7: when playback is stopped or paused, play() starts playing, and
whenever the current time has reached the duration at that moment, the
current time is reset to 0. -/
theorem claim_C7_play (s : TP.State) (h : s.isPlaying = false) :
    (TP.play s).isPlaying = true ∧
    (TP.duration s ≤ s.currentTime → (TP.play s).currentTime = 0) := by
  constructor
  · by_cases hd : TP.duration s ≤ s.currentTime
    · simp [TP.play, h, hd]
    · simp [TP.play, h, hd]
  · intro hd
    simp [TP.play, h, hd]

/-- Concrete stopped provider state whose time sits at the end of the run,
used by the C7 witness. -/
def c7state : TP.State :=
  { trajectoryProfile := [(0, originMouseState), (2, originMouseState)],
    sortedTimestamps := [0, 2], currentTime := 2, isPlaying := false,
    playbackSpeed := 1 }

/-- Witness for claim C7 at a concrete state with time at the duration. -/
theorem claim_C7_play_witness :
    (c7state.isPlaying = false) ∧
    ((TP.play c7state).isPlaying = true ∧
      (TP.duration c7state ≤ c7state.currentTime →
        (TP.play c7state).currentTime = 0)) :=
  ⟨rfl, claim_C7_play c7state rfl⟩

/-- C8: stop() of the provider clears the playing flag and rewinds the
time to 0, and stop() of the data store clears the playing flag and points
the pose at the first keyframe whenever the profile is nonempty (the first
sorted timestamp has an entry). -/
theorem claim_C8_stop (s : TP.State) (d : DS.State) :
    (TP.stop s).isPlaying = false ∧
    (TP.stop s).currentTime = 0 ∧
    (DS.stop d).isPlaying = false ∧
    (∀ t0 rest e, d.sortedTimestamps = t0 :: rest →
      profGet d.trajectoryProfile t0 = some e →
      (DS.stop d).mouseState = e) := by
  refine ⟨rfl, rfl, ?_, ?_⟩
  · cases hts : d.sortedTimestamps with
    | nil => simp [DS.stop, hts]
    | cons t0 rest =>
      cases hget : profGet d.trajectoryProfile t0 with
      | none => simp [DS.stop, hts, hget]
      | some e => simp [DS.stop, hts, hget]
  · intro t0 rest e hts hget
    simp [DS.stop, hts, hget]

/-- Concrete pose distinct from the origin pose, the first keyframe of the
C8 witness profile. -/
noncomputable def poseA : MouseState :=
  { position := { x := 1, y := 0 }, angle := 0 }

/-- Concrete playing provider state used by the C8 witness. -/
def c8tp : TP.State :=
  { trajectoryProfile := [(0, originMouseState), (2, originMouseState)],
    sortedTimestamps := [0, 2], currentTime := 1, isPlaying := true,
    playbackSpeed := 1 }

/-- Concrete playing data store state used by the C8 witness. -/
noncomputable def c8ds : DS.State :=
  { trajectoryProfile := [(0, poseA), (2, originMouseState)], isPlaying := true,
    duration := 2, playbackSpeed := 1, isLoopEnabled := false,
    sortedTimestamps := [0, 2], mouseState := originMouseState }

/-- Witness for claim C8 at concrete playing states over a profile whose
first keyframe pose is not the origin. -/
theorem claim_C8_stop_witness :
    (c8ds.sortedTimestamps = 0 :: [2] ∧
      profGet c8ds.trajectoryProfile 0 = some poseA) ∧
    ((TP.stop c8tp).isPlaying = false ∧
      (TP.stop c8tp).currentTime = 0 ∧
      (DS.stop c8ds).isPlaying = false ∧
      (DS.stop c8ds).mouseState = poseA) := by
  have h := claim_C8_stop c8tp c8ds
  exact ⟨⟨rfl, rfl⟩, h.1, h.2.1, h.2.2.1, h.2.2.2 0 [2] poseA rfl rfl⟩

/-- C9 (amended): with an empty profile the derived duration is 0, the
derived pose is the fixed origin pose at every query time, and seekTo pins
the current time to 0; but the control calls are not all no-ops: play on a
stopped state still sets the playing flag. -/
theorem claim_C9_empty_profile (s : TP.State) (hts : s.sortedTimestamps = [])
    (t x : ℚ) :
    TP.duration s = 0 ∧
    useInterpolatedMouseState s.trajectoryProfile t s.sortedTimestamps =
      originMouseState ∧
    (TP.seekTo x s).currentTime = 0 ∧
    (s.isPlaying = false → (TP.play s).isPlaying = true) := by
  have hd : TP.duration s = 0 := by simp [TP.duration, hts]
  refine ⟨hd, ?_, ?_, ?_⟩
  · rw [hts]
    simp [useInterpolatedMouseState]
  · show max 0 (min x (TP.duration s)) = 0
    rw [hd]
    exact max_eq_left (min_le_right x 0)
  · intro h
    by_cases hcur : TP.duration s ≤ s.currentTime
    · simp [TP.play, h, hcur]
    · simp [TP.play, h, hcur]

/-- Concrete stopped provider state with the empty profile installed. -/
def c9state : TP.State :=
  { trajectoryProfile := [], sortedTimestamps := [], currentTime := 0,
    isPlaying := false, playbackSpeed := 1 }

/-- Witness for the amended claim C9 at the empty profile, query time 5 and
seek target -3. -/
theorem claim_C9_empty_profile_witness :
    (c9state.sortedTimestamps = ([] : List ℚ)) ∧
    (TP.duration c9state = 0 ∧
      useInterpolatedMouseState c9state.trajectoryProfile 5 c9state.sortedTimestamps =
        originMouseState ∧
      (TP.seekTo (-3) c9state).currentTime = 0 ∧
      (c9state.isPlaying = false → (TP.play c9state).isPlaying = true)) :=
  ⟨rfl, claim_C9_empty_profile c9state rfl 5 (-3)⟩

/-- C9 counterexample: with the empty profile installed and playback
stopped, play() is not a no-op on the playback state: it flips isPlaying
from false to true, refuting that every control call leaves the playback
state unchanged. -/
theorem claim_C9_empty_profile_counterexample :
    c9state.isPlaying = false ∧ (TP.play c9state).isPlaying = true := by
  constructor
  · rfl
  · simp [TP.play, c9state, TP.duration]

/-- C2 (amended): while playing with looping enabled, a frame whose computed
next time reaches or passes the duration resets the current time to exactly
0 (a restart from the beginning, not the overshoot modulo the duration) and
leaves the playing flag set. -/
theorem claim_C2_loop_wrap (s : AnimState) (delta : ℚ)
    (hp : s.isPlaying = true) (hl : s.isLoopEnabled = true)
    (hlast : s.lastTime ≠ 0) (hdt : delta ≤ 1 / 10)
    (hnext : s.duration ≤ s.currentTime + delta * s.playbackSpeed) :
    (advanceFrame delta s).currentTime = 0 ∧
    (advanceFrame delta s).isPlaying = true := by
  have hcap : min delta (1 / 10 : ℚ) = delta := min_eq_left hdt
  have hni : ¬ (s.isPlaying = false) := by
    rw [hp]
    exact fun hcon => absurd hcon (by simp)
  have hred : advanceFrame delta s =
      { s with currentTime := 0,
               mouseState :=
                 updateMouseStateForTime 0 s.trajectoryProfile s.sortedTimestamps,
               lastTime := 0 } := by
    simp only [advanceFrame]
    rw [if_neg hni, hcap, if_neg hlast, if_pos hnext, hl, if_pos rfl]
  rw [hred]
  exact ⟨rfl, hp⟩

/-- Concrete looping state at time 1.95 of a two second run, one hundredth
of a second after its previous frame. -/
noncomputable def c2state : AnimState :=
  { isPlaying := true, duration := 2, playbackSpeed := 1, isLoopEnabled := true,
    trajectoryProfile := [], sortedTimestamps := [], currentTime := 39 / 20,
    mouseState := originMouseState, lastTime := 1 / 100 }

/-- Witness for the amended claim C2: a 0.1 s frame from time 1.95 at speed
1 computes next time 2.05, past the duration 2, and the controller wraps to
time 0 while still playing. -/
theorem claim_C2_loop_wrap_witness :
    (c2state.isPlaying = true ∧ c2state.isLoopEnabled = true ∧
      c2state.lastTime ≠ 0 ∧ (1 / 10 : ℚ) ≤ 1 / 10 ∧
      c2state.duration ≤ c2state.currentTime + (1 / 10) * c2state.playbackSpeed) ∧
    ((advanceFrame (1 / 10) c2state).currentTime = 0 ∧
      (advanceFrame (1 / 10) c2state).isPlaying = true) :=
  ⟨⟨rfl, rfl, by norm_num [c2state], le_rfl, by norm_num [c2state]⟩,
    claim_C2_loop_wrap c2state (1 / 10) rfl rfl (by norm_num [c2state]) le_rfl
      (by norm_num [c2state])⟩

/-- C2 counterexample: at the same concrete input the claim predicts the
overshoot modulo the duration, (1.95 + 0.1 * 1) mod 2 = 1/20, but the
controller resets the time to 0, which differs from 1/20. -/
theorem claim_C2_loop_wrap_counterexample :
    (advanceFrame (1 / 10) c2state).currentTime = 0 ∧
    ¬ (advanceFrame (1 / 10) c2state).currentTime = 1 / 20 := by
  have h := claim_C2_loop_wrap c2state (1 / 10) rfl rfl (by norm_num [c2state]) le_rfl
    (by norm_num [c2state])
  refine ⟨h.1, ?_⟩
  rw [h.1]
  norm_num

/-- At or beyond the last sorted timestamp the derived pose is the last
keyframe's pose. -/
theorem updateMouseStateForTime_last (profile : TrajectoryProfile) {ts : List ℚ}
    (hne : ts ≠ []) (hsort : ts.Pairwise (· < ·)) {t : ℚ}
    (ht : ts.getD (ts.length - 1) 0 ≤ t) :
    updateMouseStateForTime t profile ts =
      elemGet profile (ts.getD (ts.length - 1) 0) := by
  have hlen : 0 < ts.length := List.length_pos.mpr hne
  have hne0 : ¬ ts.length = 0 := by omega
  by_cases h1 : ts.length = 1
  · have hfl : ts.getD 0 0 = ts.getD (ts.length - 1) 0 := by rw [h1]
    by_cases h2 : t ≤ ts.getD 0 0
    · simp only [updateMouseStateForTime]
      rw [if_neg hne0, if_pos h2, hfl]
    · simp only [updateMouseStateForTime]
      rw [if_neg hne0, if_neg h2, if_pos ht]
  · have hfirst : ts.getD 0 0 < ts.getD (ts.length - 1) 0 :=
      sorted_getD_lt hsort (by omega) (by omega)
    have h2 : ¬ t ≤ ts.getD 0 0 := by
      intro hcon
      have := le_trans ht hcon
      linarith
    simp only [updateMouseStateForTime]
    rw [if_neg hne0, if_neg h2, if_pos ht]

/-- C3: while playing with looping disabled, a frame whose computed next
time reaches or passes the duration clamps the current time to exactly the
duration, clears the playing flag, and recomputes the pose at time
duration; when the timestamps are nonempty and sorted with the duration
equal to the last timestamp, that pose is the final keyframe's pose, not
the initial one. -/
theorem claim_C3_end_clamp (s : AnimState) (delta : ℚ)
    (hp : s.isPlaying = true) (hl : s.isLoopEnabled = false)
    (hlast : s.lastTime ≠ 0) (hdt : delta ≤ 1 / 10)
    (hnext : s.duration ≤ s.currentTime + delta * s.playbackSpeed) :
    (advanceFrame delta s).currentTime = s.duration ∧
    (advanceFrame delta s).isPlaying = false ∧
    (advanceFrame delta s).mouseState =
      updateMouseStateForTime s.duration s.trajectoryProfile s.sortedTimestamps ∧
    (s.sortedTimestamps ≠ [] → s.sortedTimestamps.Pairwise (· < ·) →
      s.duration = s.sortedTimestamps.getD (s.sortedTimestamps.length - 1) 0 →
      (advanceFrame delta s).mouseState =
        elemGet s.trajectoryProfile
          (s.sortedTimestamps.getD (s.sortedTimestamps.length - 1) 0)) := by
  have hcap : min delta (1 / 10 : ℚ) = delta := min_eq_left hdt
  have hni : ¬ (s.isPlaying = false) := by
    rw [hp]
    exact fun hcon => absurd hcon (by simp)
  have hnl : ¬ (s.isLoopEnabled = true) := by
    rw [hl]
    exact fun hcon => absurd hcon (by simp)
  have hred : advanceFrame delta s =
      { s with currentTime := s.duration,
               mouseState :=
                 updateMouseStateForTime s.duration s.trajectoryProfile
                   s.sortedTimestamps,
               isPlaying := false,
               lastTime := 0 } := by
    simp only [advanceFrame]
    rw [if_neg hni, hcap, if_neg hlast, if_pos hnext, if_neg hnl]
  rw [hred]
  refine ⟨rfl, rfl, rfl, ?_⟩
  intro hne hsort hdur
  show updateMouseStateForTime s.duration s.trajectoryProfile s.sortedTimestamps = _
  rw [hdur]
  exact updateMouseStateForTime_last s.trajectoryProfile hne hsort le_rfl

/-- Concrete non-looping playing state at time 1.95 of a run whose last
keyframe at time 2 has a pose distinct from the first. -/
noncomputable def c3state : AnimState :=
  { isPlaying := true, duration := 2, playbackSpeed := 1, isLoopEnabled := false,
    trajectoryProfile := [(0, originMouseState), (2, poseA)],
    sortedTimestamps := [0, 2], currentTime := 39 / 20,
    mouseState := originMouseState, lastTime := 1 / 100 }

/-- Witness for claim C3: a 0.1 s frame from time 1.95 at speed 1 computes
next time 2.05, past the duration 2, and the controller clamps to 2, stops,
and shows the pose at time 2. -/
theorem claim_C3_end_clamp_witness :
    (c3state.isPlaying = true ∧ c3state.isLoopEnabled = false ∧
      c3state.lastTime ≠ 0 ∧ (1 / 10 : ℚ) ≤ 1 / 10 ∧
      c3state.duration ≤ c3state.currentTime + (1 / 10) * c3state.playbackSpeed) ∧
    ((advanceFrame (1 / 10) c3state).currentTime = c3state.duration ∧
      (advanceFrame (1 / 10) c3state).isPlaying = false ∧
      (advanceFrame (1 / 10) c3state).mouseState =
        updateMouseStateForTime c3state.duration c3state.trajectoryProfile
          c3state.sortedTimestamps ∧
      (c3state.sortedTimestamps ≠ [] → c3state.sortedTimestamps.Pairwise (· < ·) →
        c3state.duration =
          c3state.sortedTimestamps.getD (c3state.sortedTimestamps.length - 1) 0 →
        (advanceFrame (1 / 10) c3state).mouseState =
          elemGet c3state.trajectoryProfile
            (c3state.sortedTimestamps.getD (c3state.sortedTimestamps.length - 1) 0))) :=
  ⟨⟨rfl, rfl, by norm_num [c3state], le_rfl, by norm_num [c3state]⟩,
    claim_C3_end_clamp c3state (1 / 10) rfl rfl (by norm_num [c3state]) le_rfl
      (by norm_num [c3state])⟩

attribute [ext] Vec2 MouseState

/-- Truncation agrees with the floor on nonnegative reals. -/
theorem jsTrunc_nonneg {x : ℝ} (h : 0 ≤ x) : jsTrunc x = ⌊x⌋ := by
  simp [jsTrunc, h]

/-- With a nonnegative dividend the JavaScript remainder is the floor-based
remainder. -/
theorem jsMod_eq_of_nonneg {x d : ℝ} (hx : 0 ≤ x) (hd : 0 < d) :
    jsMod x d = x - d * (⌊x / d⌋ : ℝ) := by
  rw [jsMod, jsTrunc_nonneg (div_nonneg hx (le_of_lt hd))]

/-- The floor-based remainder lands in [0, d). -/
theorem sub_floor_div_mul_bounds {d : ℝ} (hd : 0 < d) (x : ℝ) :
    0 ≤ x - d * (⌊x / d⌋ : ℝ) ∧ x - d * (⌊x / d⌋ : ℝ) < d := by
  have hfr : x - d * (⌊x / d⌋ : ℝ) = d * Int.fract (x / d) := by
    rw [Int.fract]
    field_simp
  constructor
  · rw [hfr]
    exact mul_nonneg (le_of_lt hd) (Int.fract_nonneg _)
  · rw [hfr]
    calc d * Int.fract (x / d) < d * 1 :=
          mul_lt_mul_of_pos_left (Int.fract_lt_one _) hd
      _ = d := mul_one d

/-- The JavaScript remainder of a nonnegative dividend by a positive
divisor: it differs from the dividend by an integer multiple of the divisor
and lands in [0, d). -/
theorem jsMod_spec (x : ℝ) {d : ℝ} (hx : 0 ≤ x) (hd : 0 < d) :
    ∃ k : ℤ, jsMod x d = x - d * (k : ℝ) ∧ 0 ≤ jsMod x d ∧ jsMod x d < d := by
  refine ⟨⌊x / d⌋, jsMod_eq_of_nonneg hx hd, ?_, ?_⟩
  · rw [jsMod_eq_of_nonneg hx hd]
    exact (sub_floor_div_mul_bounds hd x).1
  · rw [jsMod_eq_of_nonneg hx hd]
    exact (sub_floor_div_mul_bounds hd x).2

/-- The shortest signed angular difference from a to b on the circle: the
unique representative of b - a in [-pi, pi), via the floor-based remainder. -/
noncomputable def shortestAngleDiff (a b : ℝ) : ℝ :=
  (b - a + Real.pi) - Real.pi * 2 * (⌊(b - a + Real.pi) / (Real.pi * 2)⌋ : ℝ) - Real.pi

/-- The shortest signed angular difference always lies in [-pi, pi). -/
theorem shortestAngleDiff_mem (a b : ℝ) :
    -Real.pi ≤ shortestAngleDiff a b ∧ shortestAngleDiff a b < Real.pi := by
  have hpi := Real.pi_pos
  have h2p : (0 : ℝ) < Real.pi * 2 := by linarith
  obtain ⟨h1, h2⟩ := sub_floor_div_mul_bounds h2p (b - a + Real.pi)
  unfold shortestAngleDiff
  constructor
  · linarith
  · linarith

/-- The shortest signed angular difference from a to b differs from b - a by
an integer multiple of the full turn. -/
theorem shortestAngleDiff_sub (a b : ℝ) :
    ∃ k : ℤ, shortestAngleDiff a b - (b - a) = Real.pi * 2 * (k : ℝ) := by
  refine ⟨-⌊(b - a + Real.pi) / (Real.pi * 2)⌋, ?_⟩
  unfold shortestAngleDiff
  push_cast
  ring

/-- Two reals of the range [-pi, pi) that differ by an integer multiple of
the full turn are equal. -/
theorem eq_of_int_mul_diff {x y : ℝ} (k : ℤ)
    (hk : x - y = Real.pi * 2 * (k : ℝ))
    (hx1 : -Real.pi ≤ x) (hx2 : x < Real.pi)
    (hy1 : -Real.pi ≤ y) (hy2 : y < Real.pi) : x = y := by
  have hpi := Real.pi_pos
  have h2p : (0 : ℝ) < Real.pi * 2 := by linarith
  have hKzero : k = 0 := by
    by_contra hcon
    have hone : (1 : ℝ) ≤ |(k : ℝ)| := by exact_mod_cast Int.one_le_abs hcon
    have hlt : |x - y| < Real.pi * 2 := by
      rw [abs_lt]
      constructor
      · linarith
      · linarith
    rw [hk, abs_mul, abs_of_pos h2p] at hlt
    nlinarith
  rw [hKzero] at hk
  push_cast at hk
  linarith

/-- Scaling the shortest signed angular difference by a parameter in [0, 1]
keeps it inside [-pi, pi). -/
theorem shortestAngleDiff_mul_bounds (a b : ℝ) {t : ℝ} (ht : 0 ≤ t ∧ t ≤ 1) :
    -Real.pi ≤ shortestAngleDiff a b * t ∧ shortestAngleDiff a b * t < Real.pi := by
  have hpi := Real.pi_pos
  obtain ⟨hd0, hd1⟩ := shortestAngleDiff_mem a b
  constructor
  · rcases le_or_lt 0 (shortestAngleDiff a b) with hc | hc
    · have := mul_nonneg hc ht.1
      linarith
    · have hpr : 0 ≤ (-(shortestAngleDiff a b)) * (1 - t) :=
        mul_nonneg (by linarith) (by linarith)
      have hexp : (-(shortestAngleDiff a b)) * (1 - t) =
          -(shortestAngleDiff a b) + shortestAngleDiff a b * t := by ring
      rw [hexp] at hpr
      linarith
  · rcases le_or_lt (shortestAngleDiff a b) 0 with hc | hc
    · have := mul_nonpos_of_nonpos_of_nonneg hc ht.1
      linarith
    · have := mul_le_of_le_one_right (le_of_lt hc) ht.2
      linarith

/-- The normalized delta computed inside interpolateAngle is exactly the
shortest signed angular difference, whenever the source heading is at most
pi and the target heading at least -pi (so the dividend is nonnegative). -/
theorem interpolate_diff_eq {a0 a1 : ℝ} (ha0 : a0 ≤ Real.pi) (ha1 : -Real.pi ≤ a1) :
    jsMod (a1 - a0 + Real.pi * 3) (Real.pi * 2) - Real.pi = shortestAngleDiff a0 a1 := by
  have hpi := Real.pi_pos
  have h2p : (0 : ℝ) < Real.pi * 2 := by linarith
  have hx : 0 ≤ a1 - a0 + Real.pi * 3 := by linarith
  rw [jsMod_eq_of_nonneg hx h2p]
  have hq : (a1 - a0 + Real.pi * 3) / (Real.pi * 2) =
      (a1 - a0 + Real.pi) / (Real.pi * 2) + 1 := by
    field_simp
    ring
  rw [hq, Int.floor_add_one]
  unfold shortestAngleDiff
  push_cast
  ring

/-- The displacement from the source heading to the interpolated heading,
measured as the shortest signed difference, is the shortest signed
difference to the target scaled by the parameter. -/
theorem interpolateAngle_shortest (a0 a1 t : ℝ)
    (h0 : -Real.pi ≤ a0 ∧ a0 ≤ Real.pi) (h1 : -Real.pi ≤ a1 ∧ a1 ≤ Real.pi)
    (ht : 0 ≤ t ∧ t ≤ 1) :
    shortestAngleDiff a0 (interpolateAngle a0 a1 t) = shortestAngleDiff a0 a1 * t := by
  have hpi := Real.pi_pos
  have h2p : (0 : ℝ) < Real.pi * 2 := by linarith
  obtain ⟨hδ0, hδ1⟩ := shortestAngleDiff_mem a0 a1
  obtain ⟨hδt0, hδt1⟩ := shortestAngleDiff_mul_bounds a0 a1 ht
  have hdiff : jsMod (a1 - a0 + Real.pi * 3) (Real.pi * 2) - Real.pi =
      shortestAngleDiff a0 a1 := interpolate_diff_eq h0.2 h1.1
  have hE0 : 0 ≤ a0 + shortestAngleDiff a0 a1 * t + Real.pi * 3 := by linarith
  obtain ⟨j, hj, hj0, hj1⟩ :=
    jsMod_spec (a0 + shortestAngleDiff a0 a1 * t + Real.pi * 3) hE0 h2p
  have hres : interpolateAngle a0 a1 t =
      a0 + shortestAngleDiff a0 a1 * t + Real.pi * 3 -
        Real.pi * 2 * (j : ℝ) - Real.pi := by
    simp only [interpolateAngle]
    rw [hdiff, hj]
  obtain ⟨m, hm⟩ := shortestAngleDiff_sub a0 (interpolateAngle a0 a1 t)
  obtain ⟨hs0, hs1⟩ := shortestAngleDiff_mem a0 (interpolateAngle a0 a1 t)
  refine eq_of_int_mul_diff (m + 1 - j) ?_ hs0 hs1 hδt0 hδt1
  push_cast
  linear_combination hm + hres

/-- C4: for headings a0 and a1 in [-pi, pi] and t in [0, 1], the angular
displacement from a0 to the interpolated heading, measured as the shortest
signed difference on the circle, equals the shortest signed difference from
a0 to a1 scaled by t, and in particular has absolute value at most pi: the
interpolated heading moves linearly along the short arc and never takes the
long way around. -/
theorem claim_C4_shortest_path (a0 a1 t : ℝ)
    (h0 : -Real.pi ≤ a0 ∧ a0 ≤ Real.pi) (h1 : -Real.pi ≤ a1 ∧ a1 ≤ Real.pi)
    (ht : 0 ≤ t ∧ t ≤ 1) :
    shortestAngleDiff a0 (interpolateAngle a0 a1 t) = shortestAngleDiff a0 a1 * t ∧
    |shortestAngleDiff a0 (interpolateAngle a0 a1 t)| ≤ Real.pi := by
  have heq := interpolateAngle_shortest a0 a1 t h0 h1 ht
  obtain ⟨hb0, hb1⟩ := shortestAngleDiff_mul_bounds a0 a1 ht
  refine ⟨heq, ?_⟩
  rw [heq, abs_le]
  constructor
  · exact hb0
  · exact le_of_lt hb1

/-- Witness for claim C4 at headings 0 and 0 with parameter 0. -/
theorem claim_C4_shortest_path_witness :
    ((-Real.pi ≤ (0 : ℝ) ∧ (0 : ℝ) ≤ Real.pi) ∧
      (-Real.pi ≤ (0 : ℝ) ∧ (0 : ℝ) ≤ Real.pi) ∧
      ((0 : ℝ) ≤ 0 ∧ (0 : ℝ) ≤ 1)) ∧
    (shortestAngleDiff 0 (interpolateAngle 0 0 0) = shortestAngleDiff 0 0 * 0 ∧
      |shortestAngleDiff 0 (interpolateAngle 0 0 0)| ≤ Real.pi) := by
  have hpi := Real.pi_pos
  exact ⟨⟨⟨by linarith, by linarith⟩, ⟨by linarith, by linarith⟩,
      ⟨le_rfl, by norm_num⟩⟩,
    claim_C4_shortest_path 0 0 0 ⟨by linarith, by linarith⟩
      ⟨by linarith, by linarith⟩ ⟨le_rfl, by norm_num⟩⟩

/-- At parameter 0 the interpolated angle is the start angle, provided the
start angle lies in [-pi, pi) (the representative range the normalization
maps onto). -/
theorem interpolateAngle_zero {a1 : ℝ} (h : -Real.pi ≤ a1 ∧ a1 < Real.pi)
    (a2 : ℝ) : interpolateAngle a1 a2 0 = a1 := by
  have hpi := Real.pi_pos
  have h2p : (0 : ℝ) < Real.pi * 2 := by linarith
  simp only [interpolateAngle, mul_zero]
  have e1 : a1 + 0 + Real.pi * 3 = a1 + Real.pi * 3 := by ring
  rw [e1]
  have hx : 0 ≤ a1 + Real.pi * 3 := by linarith
  rw [jsMod_eq_of_nonneg hx h2p]
  have hfloor : ⌊(a1 + Real.pi * 3) / (Real.pi * 2)⌋ = 1 := by
    rw [Int.floor_eq_iff]
    push_cast
    constructor
    · rw [le_div_iff h2p]
      linarith
    · rw [div_lt_iff h2p]
      linarith
  rw [hfloor]
  push_cast
  ring

/-- At parameter 1 the interpolated angle is the target angle, provided the
target angle lies in [-pi, pi). -/
theorem interpolateAngle_one {a1 a2 : ℝ}
    (h1 : -Real.pi ≤ a1 ∧ a1 ≤ Real.pi) (h2 : -Real.pi ≤ a2 ∧ a2 < Real.pi) :
    interpolateAngle a1 a2 1 = a2 := by
  have hpi := Real.pi_pos
  have h2p : (0 : ℝ) < Real.pi * 2 := by linarith
  simp only [interpolateAngle, mul_one]
  have hD0 : 0 ≤ a2 - a1 + Real.pi * 3 := by linarith
  obtain ⟨k, hk, hk0, hk1⟩ := jsMod_spec (a2 - a1 + Real.pi * 3) hD0 h2p
  rw [hk]
  have hE0 : 0 ≤ a1 + (a2 - a1 + Real.pi * 3 - Real.pi * 2 * (k : ℝ) - Real.pi) +
      Real.pi * 3 := by
    rw [hk] at hk0
    linarith
  obtain ⟨j, hj, hj0, hj1⟩ :=
    jsMod_spec (a1 + (a2 - a1 + Real.pi * 3 - Real.pi * 2 * (k : ℝ) - Real.pi) +
      Real.pi * 3) hE0 h2p
  rw [hj]
  rw [hk] at hk0 hk1
  rw [hj] at hj0 hj1
  have key : a1 + (a2 - a1 + Real.pi * 3 - Real.pi * 2 * (k : ℝ) - Real.pi) +
      Real.pi * 3 - Real.pi * 2 * (j : ℝ) - Real.pi - a2 =
      Real.pi * 2 * (((2 - k - j : ℤ) : ℝ)) := by
    push_cast
    ring
  have hKzero : (2 - k - j : ℤ) = 0 := by
    by_contra hcon
    have hone : (1 : ℝ) ≤ |((2 - k - j : ℤ) : ℝ)| := by
      exact_mod_cast Int.one_le_abs hcon
    have hlt : |Real.pi * 2 * (((2 - k - j : ℤ) : ℝ))| < Real.pi * 2 := by
      rw [abs_lt]
      constructor
      · linarith
      · linarith
    rw [abs_mul, abs_of_pos h2p] at hlt
    nlinarith
  have hcast : (((2 - k - j : ℤ) : ℝ)) = 0 := by exact_mod_cast hKzero
  rw [hcast, mul_zero] at key
  linarith

/-- Evaluation at the heading pi: interpolating from pi at parameter 0
lands on the other representative -pi. -/
theorem interpolateAngle_pi_zero : interpolateAngle Real.pi 0 0 = -Real.pi := by
  have hpi := Real.pi_pos
  have h2p : (0 : ℝ) < Real.pi * 2 := by linarith
  simp only [interpolateAngle, mul_zero]
  have e1 : Real.pi + 0 + Real.pi * 3 = Real.pi * 4 := by ring
  rw [e1]
  have hx : 0 ≤ Real.pi * 4 := by linarith
  rw [jsMod_eq_of_nonneg hx h2p]
  have hdiv : Real.pi * 4 / (Real.pi * 2) = 2 := by
    rw [div_eq_iff (ne_of_gt h2p)]
    ring
  rw [hdiv]
  have hfloor : ⌊(2 : ℝ)⌋ = 2 := by norm_num
  rw [hfloor]
  push_cast
  ring

/-- The keyframe pose with heading pi used by the C5 counterexample. -/
noncomputable def poseBeforePi : MouseState :=
  { position := { x := 0, y := 0 }, angle := Real.pi }

/-- The keyframe pose with heading 0 used by the C5 counterexample. -/
noncomputable def poseAfterZero : MouseState :=
  { position := { x := 0, y := 0 }, angle := 0 }

/-- C5 counterexample: with the heading of the pose before equal to pi (a
value inside the claimed range [-pi, pi]), interpolation at t = 0 returns
heading -pi, not pi, so the result is not exactly the pose before. -/
theorem claim_C5_endpoints_counterexample :
    (interpolatePose poseBeforePi poseAfterZero 0).angle = -Real.pi ∧
    interpolatePose poseBeforePi poseAfterZero 0 ≠ poseBeforePi := by
  have h : (interpolatePose poseBeforePi poseAfterZero 0).angle = -Real.pi := by
    show interpolateAngle Real.pi 0 0 = -Real.pi
    exact interpolateAngle_pi_zero
  refine ⟨h, ?_⟩
  intro hcon
  have hang := congrArg MouseState.angle hcon
  rw [h] at hang
  have : -Real.pi = Real.pi := hang
  have hpi := Real.pi_pos
  linarith

/-- C5 (amended): for keyframe poses whose headings lie in [-pi, pi) (the
endpoint pi itself excluded, as the counterexample forces), interpolation
at parameter 0 returns exactly the pose before and at parameter 1 exactly
the pose after, position and heading alike. -/
theorem claim_C5_endpoints (before afterPose : MouseState)
    (hb : -Real.pi ≤ before.angle ∧ before.angle < Real.pi)
    (ha : -Real.pi ≤ afterPose.angle ∧ afterPose.angle < Real.pi) :
    interpolatePose before afterPose 0 = before ∧
    interpolatePose before afterPose 1 = afterPose := by
  constructor
  · refine MouseState.ext (Vec2.ext ?_ ?_) ?_
    · show before.position.x + (afterPose.position.x - before.position.x) * 0 =
        before.position.x
      ring
    · show before.position.y + (afterPose.position.y - before.position.y) * 0 =
        before.position.y
      ring
    · exact interpolateAngle_zero hb afterPose.angle
  · refine MouseState.ext (Vec2.ext ?_ ?_) ?_
    · show before.position.x + (afterPose.position.x - before.position.x) * 1 =
        afterPose.position.x
      ring
    · show before.position.y + (afterPose.position.y - before.position.y) * 1 =
        afterPose.position.y
      ring
    · exact interpolateAngle_one ⟨hb.1, le_of_lt hb.2⟩ ha

/-- Witness for the amended claim C5 at two concrete poses with headings 0. -/
theorem claim_C5_endpoints_witness :
    ((-Real.pi ≤ originMouseState.angle ∧ originMouseState.angle < Real.pi) ∧
      (-Real.pi ≤ poseA.angle ∧ poseA.angle < Real.pi)) ∧
    (interpolatePose originMouseState poseA 0 = originMouseState ∧
      interpolatePose originMouseState poseA 1 = poseA) := by
  have hpi := Real.pi_pos
  have hb : -Real.pi ≤ originMouseState.angle ∧ originMouseState.angle < Real.pi := by
    constructor
    · show -Real.pi ≤ (0 : ℝ)
      linarith
    · show (0 : ℝ) < Real.pi
      exact hpi
  have ha : -Real.pi ≤ poseA.angle ∧ poseA.angle < Real.pi := by
    constructor
    · show -Real.pi ≤ (0 : ℝ)
      linarith
    · show (0 : ℝ) < Real.pi
      exact hpi
  exact ⟨⟨hb, ha⟩, claim_C5_endpoints originMouseState poseA hb ha⟩
